import Mathlib

/-!
Verification development for the Express multi-provider chat proxy
(`server.js`): the streaming relay pipeline of `streamOpenAICompletion`,
the non-streaming adapters `callOpenAICompletionFull` and
`callGoogleGenerate`, and the two routes `POST /api/chat` and
`POST /api/chat-sync`.

Modelling conventions:
- JavaScript strings are modelled as `List Char` (code points).  The
  handlers only ever build strings from code points, so this matches the
  source except for lone-surrogate corner cases of `split('')/reverse`,
  which no claim depends on.
- Network bytes are modelled as `Nat` values (real reads carry 0..255).
- `JSON.parse` is a JavaScript builtin, not repository code; it is
  modelled as an explicit parameter `p : Parse` (a deterministic partial
  function from payload strings to JSON values).  Theorems quantify over
  it; witnesses instantiate it with concrete fixture tables.
-/

namespace Proxy

/-- Code points of a string literal (JS strings are `List Char` here). -/
def chars (s : String) : List Char := s.data

/-- The characters matched by the JavaScript regex class `\s`
(used in `line.replace(/^data:\s*/, '')`). -/
def isJsWs (c : Char) : Bool :=
  c = ' ' ∨ c = '\t' ∨ c = '\n' ∨ c = '\r' ∨ c = '\x0b' ∨ c = '\x0c' ∨
  c.toNat = 0xa0 ∨ c.toNat = 0x1680 ∨ (0x2000 ≤ c.toNat ∧ c.toNat ≤ 0x200a) ∨
  c.toNat = 0x2028 ∨ c.toNat = 0x2029 ∨ c.toNat = 0x202f ∨
  c.toNat = 0x205f ∨ c.toNat = 0x3000 ∨ c.toNat = 0xfeff

/-- Cons a character onto the first segment of a split result. -/
def consHead (c : Char) : List (List Char) → List (List Char)
  | [] => [[c]]
  | s :: ss => (c :: s) :: ss

/-- Model of `buf.split(/\n\n/)`: leftmost, non-overlapping split on two consecutive
newlines, exactly as the JavaScript `String.prototype.split` with that
regex behaves (always returns at least one, possibly empty, segment). -/
def splitDD : List Char → List (List Char)
  | '\n' :: '\n' :: rest => [] :: splitDD rest
  | c :: rest => consHead c (splitDD rest)
  | [] => [[]]

/-- Holds (`true`) iff the text contains no `\n\n` occurrence (no frame delimiter). -/
def noDD : List Char → Bool
  | '\n' :: '\n' :: _ => false
  | _ :: rest => noDD rest
  | [] => true

/-- All segments except the popped last one (`parts` after `parts.pop()`). -/
def frontL : List (List Char) → List (List Char)
  | [] => []
  | [_] => []
  | x :: xs => x :: frontL xs

/-- The last segment (the value `parts.pop()` hands back to `buf`). -/
def lastD : List (List Char) → List Char
  | [] => []
  | [x] => x
  | _ :: xs => lastD xs

theorem guard_head {c : Char} {s : List Char}
    (hne : ∀ r, c = '\n' → s = '\n' :: r → False) :
    ¬(c = '\n' ∧ s.head? = some '\n') := by
  rintro ⟨hc, hd⟩
  cases s with
  | nil => simp at hd
  | cons d r =>
    simp at hd
    exact hne r hc (by rw [hd])

theorem splitDD_dd (rest : List Char) :
    splitDD ('\n' :: '\n' :: rest) = [] :: splitDD rest := by
  simp [splitDD]

theorem splitDD_cons (c : Char) (s : List Char)
    (h : ¬(c = '\n' ∧ s.head? = some '\n')) :
    splitDD (c :: s) = consHead c (splitDD s) := by
  rw [splitDD.eq_def]
  split
  · rename_i rest heq
    injection heq with h1 h2
    exact absurd ⟨h1, by rw [h2]; rfl⟩ h
  · rename_i c' rest heq
    injection heq with h1 h2
    subst h1; subst h2; rfl
  · rename_i heq
    cases heq

theorem noDD_cons {c : Char} {s : List Char}
    (h : ¬(c = '\n' ∧ s.head? = some '\n')) (hs : noDD s = true) :
    noDD (c :: s) = true := by
  rw [noDD.eq_def]
  split
  · rename_i heq
    injection heq with h1 h2
    exact absurd ⟨h1, by rw [h2]; rfl⟩ h
  · rename_i c' rest heq
    injection heq with h1 h2
    subst h2; exact hs
  · rename_i heq
    cases heq

theorem noDD_tail {c : Char} {s : List Char} (h : noDD (c :: s) = true) :
    noDD s = true := by
  rw [noDD.eq_def] at h
  split at h
  · simp at h
  · rename_i c' rest heq
    injection heq with h1 h2
    subst h2; exact h
  · rename_i heq
    cases heq

theorem splitDD_ne_nil (s : List Char) : splitDD s ≠ [] := by
  induction s using splitDD.induct with
  | case1 rest ih => simp [splitDD_dd]
  | case2 c rest hne ih =>
    rw [splitDD_cons c rest (guard_head hne)]
    rcases hs : splitDD rest with _ | ⟨a, l⟩
    · exact absurd hs ih
    · simp [consHead]
  | case3 => simp [splitDD]

theorem splitDD_singleton {s t : List Char} (h : splitDD s = [t]) : t = s := by
  induction s using splitDD.induct generalizing t with
  | case1 rest ih =>
    rw [splitDD_dd] at h
    injection h with h1 h2
    exact absurd h2 (splitDD_ne_nil rest)
  | case2 c rest hne ih =>
    rw [splitDD_cons c rest (guard_head hne)] at h
    rcases hs : splitDD rest with _ | ⟨a, l⟩
    · exact absurd hs (splitDD_ne_nil rest)
    · rw [hs] at h
      simp only [consHead] at h
      injection h with h3 h4
      subst h4
      rw [ih (t := a) hs] at h3
      exact h3.symm
  | case3 =>
    simp only [splitDD] at h
    injection h with h1 h2
    exact h1.symm

theorem frontL_cons_cons (x y : List Char) (zs : List (List Char)) :
    frontL (x :: y :: zs) = x :: frontL (y :: zs) := rfl

theorem lastD_cons_cons (x y : List Char) (zs : List (List Char)) :
    lastD (x :: y :: zs) = lastD (y :: zs) := rfl

theorem frontL_cons_ne_nil (x : List Char) {l : List (List Char)} (h : l ≠ []) :
    frontL (x :: l) = x :: frontL l := by
  cases l with
  | nil => exact absurd rfl h
  | cons y zs => rfl

theorem lastD_cons_ne_nil (x : List Char) {l : List (List Char)} (h : l ≠ []) :
    lastD (x :: l) = lastD l := by
  cases l with
  | nil => exact absurd rfl h
  | cons y zs => rfl

theorem frontL_append_ne_nil (a : List (List Char)) {b : List (List Char)}
    (h : b ≠ []) : frontL (a ++ b) = a ++ frontL b := by
  induction a with
  | nil => rfl
  | cons x xs ih =>
    have hne : xs ++ b ≠ [] := by
      intro hx
      rcases List.append_eq_nil.1 hx with ⟨_, h2⟩
      exact h h2
    rw [List.cons_append, frontL_cons_ne_nil x hne, ih, List.cons_append]

theorem lastD_append_ne_nil (a : List (List Char)) {b : List (List Char)}
    (h : b ≠ []) : lastD (a ++ b) = lastD b := by
  induction a with
  | nil => rfl
  | cons x xs ih =>
    have hne : xs ++ b ≠ [] := by
      intro hx
      rcases List.append_eq_nil.1 hx with ⟨_, h2⟩
      exact h h2
    rw [List.cons_append, lastD_cons_ne_nil x hne, ih]

/-- The buffer-retention law of the relay loop: splitting `s ++ t` on the
frame delimiter processes the complete segments of `s` and rescans the
retained trailing partial segment of `s` prepended to `t` — exactly the
effect of `buf = parts.pop()` followed by `buf += chunk`. -/
theorem splitDD_append (s t : List Char) :
    splitDD (s ++ t) =
      frontL (splitDD s) ++ splitDD (lastD (splitDD s) ++ t) := by
  induction s using splitDD.induct generalizing t with
  | case1 rest ih =>
    have h1 : splitDD (('\n' :: '\n' :: rest) ++ t) = [] :: splitDD (rest ++ t) := by
      rw [List.cons_append, List.cons_append, splitDD_dd]
    rw [h1, splitDD_dd, ih,
      frontL_cons_ne_nil [] (splitDD_ne_nil rest),
      lastD_cons_ne_nil [] (splitDD_ne_nil rest), List.cons_append]
  | case2 c rest hne ih =>
    cases rest with
    | nil =>
      have h2 : splitDD [c] = [[c]] := by
        rw [splitDD_cons c [] (by simp), splitDD]
        rfl
      rw [h2]
      rfl
    | cons d rest2 =>
      have hcd : ¬(c = '\n' ∧ d = '\n') := by
        rintro ⟨hc, hd⟩
        exact hne rest2 hc (by rw [hd])
      have hL : splitDD (c :: (d :: rest2 ++ t)) =
          consHead c (splitDD (d :: rest2 ++ t)) := by
        refine splitDD_cons c _ ?_
        rintro ⟨hc, hd⟩
        simp at hd
        exact hcd ⟨hc, hd⟩
      have hR : splitDD (c :: d :: rest2) = consHead c (splitDD (d :: rest2)) := by
        refine splitDD_cons c _ ?_
        rintro ⟨hc, hd⟩
        simp at hd
        exact hcd ⟨hc, hd⟩
      rw [List.cons_append, hL, ih, hR]
      rcases hs : splitDD (d :: rest2) with _ | ⟨y, zs⟩
      · exact absurd hs (splitDD_ne_nil _)
      cases zs with
      | nil =>
        have hy : y = d :: rest2 := splitDD_singleton hs
        have hy' : splitDD (c :: (y ++ t)) = consHead c (splitDD (y ++ t)) := by
          refine splitDD_cons c _ ?_
          rintro ⟨hc, hd⟩
          subst hy
          simp at hd
          exact hcd ⟨hc, hd⟩
        rw [show consHead c [y] = [c :: y] from rfl]
        rw [show frontL [y] = [] from rfl, show lastD [y] = y from rfl,
          show frontL [c :: y] = [] from rfl, show lastD [c :: y] = c :: y from rfl,
          List.nil_append, List.nil_append, List.cons_append, hy']
      | cons w ws =>
        rw [show consHead c (y :: w :: ws) = (c :: y) :: w :: ws from rfl]
        rw [frontL_cons_ne_nil y (l := w :: ws) (by simp),
          frontL_cons_ne_nil (c :: y) (l := w :: ws) (by simp),
          lastD_cons_ne_nil y (l := w :: ws) (by simp),
          lastD_cons_ne_nil (c :: y) (l := w :: ws) (by simp)]
        rfl
  | case3 => rfl

theorem splitDD_of_noDD {s : List Char} (h : noDD s = true) :
    splitDD s = [s] := by
  induction s using splitDD.induct with
  | case1 rest ih => simp [noDD] at h
  | case2 c rest hne ih =>
    rw [splitDD_cons c rest (guard_head hne), ih (noDD_tail h)]
    rfl
  | case3 => rfl

theorem noDD_lastD_splitDD (s : List Char) :
    noDD (lastD (splitDD s)) = true := by
  induction s using splitDD.induct with
  | case1 rest ih =>
    rw [splitDD_dd, lastD_cons_ne_nil [] (splitDD_ne_nil rest)]
    exact ih
  | case2 c rest hne ih =>
    rw [splitDD_cons c rest (guard_head hne)]
    rcases hs : splitDD rest with _ | ⟨y, zs⟩
    · exact absurd hs (splitDD_ne_nil _)
    cases zs with
    | nil =>
      have hy : y = rest := splitDD_singleton hs
      have ihy : noDD y = true := by
        rw [hs] at ih
        simpa [lastD] using ih
      have hcy : noDD (c :: y) = true := by
        refine noDD_cons ?_ ihy
        rintro ⟨hc, hd⟩
        subst hy
        exact guard_head hne ⟨hc, hd⟩
      rw [show consHead c [y] = [c :: y] from rfl]
      simpa [lastD] using hcy
    | cons w ws =>
      rw [show consHead c (y :: w :: ws) = (c :: y) :: w :: ws from rfl,
        lastD_cons_cons]
      rw [hs, lastD_cons_ne_nil y (l := w :: ws) (by simp)] at ih
      exact ih
  | case3 => simp [splitDD, lastD, noDD]

/-! ## JSON values and the provider payload shape

`JSON.parse` returns an arbitrary JSON value; property access in the source
(`parsed.choices?.[0]?.delta`, …) is modelled by `jsGet` / `jsIdx`, with
`none` playing the role of JavaScript `undefined`. -/

inductive Json where
  | null
  | bool (b : Bool)
  | num (q : Rat)
  | str (s : List Char)
  | arr (xs : List Json)
  | obj (kvs : List (List Char × Json))

/-- Association-list lookup for object properties. -/
def lookupKV (k : List Char) : List (List Char × Json) → Option Json
  | [] => none
  | (k', v) :: rest => if k' = k then some v else lookupKV k rest

/-- JavaScript property access `x.k` (undefined on non-objects). -/
def jsGet (j : Json) (k : List Char) : Option Json :=
  match j with
  | .obj kvs => lookupKV k kvs
  | _ => none

/-- JavaScript bracket access `x?.[i]` with a numeric index: arrays index
positionally; objects look up the property named by the decimal rendering
of the index (`({"0": v})[0]` is `v`); strings index to a one-character
string; primitives have no such property (`undefined`). -/
def jsIdx (j : Json) (i : Nat) : Option Json :=
  match j with
  | .arr xs => xs.get? i
  | .obj kvs => lookupKV (chars (toString i)) kvs
  | .str s =>
    match s.get? i with
    | some c => some (.str [c])
    | none => none
  | _ => none

/-- The nullish-coalescing operator `a ?? b`: take `b` exactly when `a`
is `undefined` or `null`. -/
def coalesce (a b : Option Json) : Option Json :=
  match a with
  | none => b
  | some .null => b
  | some v => some v

/-- The source expression `parsed.choices?.[0]?.delta?.content`. -/
def deltaContent (j : Json) : Option Json :=
  ((jsGet j (chars "choices")).bind (jsIdx · 0) |>.bind
    (jsGet · (chars "delta"))).bind (jsGet · (chars "content"))

/-- The source expression `parsed.choices?.[0]?.message?.content`. -/
def messageContent (j : Json) : Option Json :=
  ((jsGet j (chars "choices")).bind (jsIdx · 0) |>.bind
    (jsGet · (chars "message"))).bind (jsGet · (chars "content"))

/-- The source expression `delta?.content ?? parsed.choices?.[0]?.message?.content`. -/
def extractText (j : Json) : Option Json :=
  coalesce (deltaContent j) (messageContent j)

/-- Model of `if (text) res.write(text)`.  A chunk is written exactly when `text`
is a non-empty string: falsy values fail the `if`, and a truthy non-string
makes `res.write` throw a `TypeError` that the surrounding
`try { ... } catch {}` swallows, so nothing is emitted either way. -/
def emitOf (t : Option Json) : Option (List Char) :=
  match t with
  | some (.str s) => if s = [] then none else some s
  | _ => none

/-! ## Line and frame processing of `streamOpenAICompletion` -/

/-- A deterministic model of the `JSON.parse` builtin: `none` is a parse
failure (the thrown `SyntaxError`). -/
abbrev Parse := List Char → Option Json

/-- Model of `part.split(/\r?\n/)`. -/
def splitLines : List Char → List (List Char)
  | '\r' :: '\n' :: rest => [] :: splitLines rest
  | '\n' :: rest => [] :: splitLines rest
  | c :: rest => consHead c (splitLines rest)
  | [] => [[]]

/-- Model of `line.startsWith('data:')`. -/
def startsData : List Char → Bool
  | 'd' :: 'a' :: 't' :: 'a' :: ':' :: _ => true
  | _ => false

/-- Outcome of one `data:` line inside the `for (const line of lines)` loop. -/
inductive LineRes where
  | skip
  | halt
  | emit (s : List Char)

/-- One iteration of the line loop: keep only `data:`-prefixed lines, strip
the prefix and following whitespace, stop on the `[DONE]` sentinel,
otherwise parse the payload and extract a text delta; a parse failure (or a
`res.write` type error) is swallowed by the inner `try/catch`. -/
def processLine (p : Parse) (line : List Char) : LineRes :=
  if startsData line then
    let payload := (line.drop 5).dropWhile isJsWs
    if payload = chars "[DONE]" then .halt
    else
      match p payload with
      | none => .skip
      | some j =>
        match emitOf (extractText j) with
        | some s => .emit s
        | none => .skip
  else .skip

/-- The line loop over one frame: emitted fragments in order, plus whether
the `[DONE]` early `return` fired (which abandons the remaining lines). -/
def processLines (p : Parse) : List (List Char) → List (List Char) × Bool
  | [] => ([], false)
  | l :: ls =>
    match processLine p l with
    | .halt => ([], true)
    | .emit s =>
      let r := processLines p ls
      (s :: r.1, r.2)
    | .skip => processLines p ls

/-- The `for (const part of parts)` loop: process each complete frame in
order, stopping everything as soon as the sentinel `return` fires. -/
def processFrames (p : Parse) : List (List Char) → List (List Char) × Bool
  | [] => ([], false)
  | f :: fs =>
    let r := processLines p (splitLines f)
    if r.2 then (r.1, true)
    else
      let r' := processFrames p fs
      (r.1 ++ r'.1, r'.2)

/-! ## The incremental UTF-8 decoder (`new TextDecoder()`, streaming mode)

The WHATWG UTF-8 decoder as a byte-at-a-time state machine; `decode(value,
{stream: true})` keeps an incomplete trailing sequence pending in the
state, which is exactly what makes reads split inside a multi-byte
character decode correctly. -/

structure Utf8State where
  codePoint : Nat
  needed : Nat
  seen : Nat
  lower : Nat
  upper : Nat
deriving DecidableEq

def utf8Init : Utf8State := ⟨0, 0, 0, 0x80, 0xbf⟩

/-- Replacement character for invalid input (non-fatal decoder). -/
def replChar : Char := Char.ofNat 0xfffd

/-- Decoder step from the initial state (no continuation pending). -/
def utf8StepStart (b : Nat) : Utf8State × List Char :=
  if b ≤ 0x7f then (utf8Init, [Char.ofNat b])
  else if 0xc2 ≤ b ∧ b ≤ 0xdf then (⟨b % 32, 1, 0, 0x80, 0xbf⟩, [])
  else if 0xe0 ≤ b ∧ b ≤ 0xef then
    (⟨b % 16, 2, 0, if b = 0xe0 then 0xa0 else 0x80,
      if b = 0xed then 0x9f else 0xbf⟩, [])
  else if 0xf0 ≤ b ∧ b ≤ 0xf4 then
    (⟨b % 8, 3, 0, if b = 0xf0 then 0x90 else 0x80,
      if b = 0xf4 then 0x8f else 0xbf⟩, [])
  else (utf8Init, [replChar])

/-- One byte of WHATWG UTF-8 decoding. -/
def utf8Step (st : Utf8State) (b : Nat) : Utf8State × List Char :=
  if st.needed = 0 then utf8StepStart b
  else if st.lower ≤ b ∧ b ≤ st.upper then
    let cp := st.codePoint * 64 + b % 64
    if st.seen + 1 = st.needed then (utf8Init, [Char.ofNat cp])
    else (⟨cp, st.needed, st.seen + 1, 0x80, 0xbf⟩, [])
  else
    -- invalid continuation byte: emit U+FFFD and reprocess the byte
    let r := utf8StepStart b
    (r.1, replChar :: r.2)

/-- Run the decoder over a read's bytes, returning the new state and the
decoded text appended to the chunk output. -/
def utf8Run (st : Utf8State) : List Nat → Utf8State × List Char
  | [] => (st, [])
  | b :: bs =>
    let r := utf8Step st b
    let r' := utf8Run r.1 bs
    (r'.1, r.2 ++ r'.2)

theorem utf8Run_append (st : Utf8State) (a b : List Nat) :
    utf8Run st (a ++ b) =
      ((utf8Run (utf8Run st a).1 b).1,
        (utf8Run st a).2 ++ (utf8Run (utf8Run st a).1 b).2) := by
  induction a generalizing st with
  | nil => simp [utf8Run]
  | cons x xs ih =>
    simp only [List.cons_append, utf8Run]
    rw [show (utf8Step st x).1 = (utf8Run st [x]).1 by simp [utf8Run]] at *
    rw [show xs.append b = xs ++ b from rfl, ih]
    simp [List.append_assoc]

/-! ## The stream relay engine

`streamOpenAICompletion`'s read loop: each `reader.read()` either yields a
byte chunk, fails (the `catch` around the `while` loop), or signals
end-of-stream (`done`).  Observable output on `res` is a trace of `write`
and `close` (`res.end`) events.  The sentinel path calls `res.end()` and
then `return`s through the `finally`, whose second `res.end()` on an
already-ended response is a guarded no-op (`try { res.end() } catch {}`),
so every execution closes the outbound stream exactly once. -/

inductive ReadEv where
  | chunk (bs : List Nat)
  | readErr

inductive OutEv where
  | write (s : List Char)
  | close
deriving DecidableEq

structure RelayRes where
  evs : List OutEv
  halted : Bool
deriving DecidableEq

/-- The read loop, tracking only the extracted fragments: decoder state
`st`, retained buffer `buf`; on each chunk decode incrementally, append
to the buffer, split on `\n\n`, process the complete frames and retain
the trailing partial segment. -/
def relayFragsGo (p : Parse) (st : Utf8State) (buf : List Char) :
    List ReadEv → List (List Char) × Bool
  | [] => ([], false)
  | .readErr :: _ => ([], false)
  | .chunk bs :: rest =>
    let d := utf8Run st bs
    let parts := splitDD (buf ++ d.2)
    let r := processFrames p (frontL parts)
    if r.2 then (r.1, true)
    else
      let r' := relayFragsGo p d.1 (lastD parts) rest
      (r.1 ++ r'.1, r'.2)

/-- The read loop with its observable `res` events: every fragment is
written as soon as it is extracted, and every exit path (sentinel
`return`, natural end-of-stream, read error) ends the response. -/
def relayGo (p : Parse) (st : Utf8State) (buf : List Char) :
    List ReadEv → RelayRes
  | [] => ⟨[.close], false⟩
  | .readErr :: _ => ⟨[.close], false⟩
  | .chunk bs :: rest =>
    let d := utf8Run st bs
    let parts := splitDD (buf ++ d.2)
    let r := processFrames p (frontL parts)
    if r.2 then ⟨r.1.map .write ++ [.close], true⟩
    else
      let r' := relayGo p d.1 (lastD parts) rest
      ⟨r.1.map .write ++ r'.evs, r'.halted⟩

/-- The relay on a fresh request (`let buf = ''`, fresh `TextDecoder`). -/
def relay (p : Parse) (evts : List ReadEv) : RelayRes :=
  relayGo p utf8Init [] evts

/-- The extracted fragments of a fresh relay run. -/
def relayFrags (p : Parse) (evts : List ReadEv) : List (List Char) × Bool :=
  relayFragsGo p utf8Init [] evts

theorem relayGo_eq_frags (p : Parse) (st : Utf8State) (buf : List Char)
    (evts : List ReadEv) :
    relayGo p st buf evts =
      ⟨(relayFragsGo p st buf evts).1.map .write ++ [.close],
        (relayFragsGo p st buf evts).2⟩ := by
  induction evts generalizing st buf with
  | nil => rfl
  | cons e rest ih =>
    cases e with
    | readErr => rfl
    | chunk bs =>
      simp only [relayGo, relayFragsGo]
      split
      · rfl
      · simp [ih]

/-- If the sentinel fired within the frames of `a`, frames appended after
`a` are never reached. -/
theorem processFrames_append_halt (p : Parse) (a b : List (List Char))
    (ha : (processFrames p a).2 = true) :
    processFrames p (a ++ b) = processFrames p a := by
  induction a with
  | nil => simp [processFrames] at ha
  | cons f fs ih =>
    rcases hpl : processLines p (splitLines f) with ⟨evs, h⟩
    cases h with
    | true => simp [processFrames, hpl]
    | false =>
      have ha' : (processFrames p fs).2 = true := by
        simpa [processFrames, hpl] using ha
      simp [processFrames, hpl, ih ha']

/-- If the sentinel did not fire within the frames of `a`, feeding `a ++ b`
emits the fragments of `a` followed by those of `b`. -/
theorem processFrames_append_nohalt (p : Parse) (a b : List (List Char))
    (ha : (processFrames p a).2 = false) :
    processFrames p (a ++ b) =
      ((processFrames p a).1 ++ (processFrames p b).1,
        (processFrames p b).2) := by
  induction a with
  | nil => simp [processFrames]
  | cons f fs ih =>
    rcases hpl : processLines p (splitLines f) with ⟨evs, h⟩
    cases h with
    | true => simp [processFrames, hpl] at ha
    | false =>
      have ha' : (processFrames p fs).2 = false := by
        simpa [processFrames, hpl] using ha
      simp [processFrames, hpl, ih ha', List.append_assoc]

/-- Single-shot characterisation of the fragment loop on pure chunk input:
whatever the read boundaries, the relay processes exactly the complete
frames of the concatenated decoded text and drops the trailing partial
segment. -/
theorem relayFragsGo_chunks (p : Parse) (st : Utf8State) (buf : List Char)
    (cs : List (List Nat)) (hbuf : noDD buf = true) :
    relayFragsGo p st buf (cs.map .chunk) =
      processFrames p (frontL (splitDD (buf ++ (utf8Run st cs.flatten).2))) := by
  induction cs generalizing st buf with
  | nil =>
    simp only [List.map_nil, relayFragsGo, List.flatten_nil, utf8Run]
    rw [List.append_nil, splitDD_of_noDD hbuf]
    rfl
  | cons c cs ih =>
    simp only [List.map_cons, relayFragsGo, List.flatten_cons]
    rw [utf8Run_append st c cs.flatten]
    set d := utf8Run st c with hd
    set t2 := (utf8Run d.1 cs.flatten).2 with ht2
    have hsplit : splitDD (buf ++ (d.2 ++ t2)) =
        frontL (splitDD (buf ++ d.2)) ++
          splitDD (lastD (splitDD (buf ++ d.2)) ++ t2) := by
      rw [← List.append_assoc]
      exact splitDD_append (buf ++ d.2) t2
    rw [hsplit]
    have hne : splitDD (lastD (splitDD (buf ++ d.2)) ++ t2) ≠ [] :=
      splitDD_ne_nil _
    rw [frontL_append_ne_nil _ hne]
    rcases hr : processFrames p (frontL (splitDD (buf ++ d.2))) with ⟨evs, h⟩
    simp only [hr]
    cases h with
    | true =>
      rw [processFrames_append_halt p _ _ (by rw [hr]), hr]
      simp
    | false =>
      rw [processFrames_append_nohalt p _ _ (by rw [hr]), hr,
        ih d.1 (lastD (splitDD (buf ++ d.2))) (noDD_lastD_splitDD _)]
      simp

/-- Single-shot characterisation of a fresh relay run over pure chunk
reads: output depends only on the concatenation of all bytes read. -/
theorem relay_chunks (p : Parse) (cs : List (List Nat)) :
    relay p (cs.map .chunk) =
      ⟨(processFrames p (frontL (splitDD (utf8Run utf8Init cs.flatten).2))).1.map
          .write ++ [.close],
        (processFrames p (frontL (splitDD (utf8Run utf8Init cs.flatten).2))).2⟩ := by
  rw [relay, relayGo_eq_frags, relayFragsGo_chunks p utf8Init [] cs rfl]
  rfl

/-! ## Configuration, providers, requests and responses

`Env` models the environment variables the server reads; `Providers`
models the behaviour of the upstream HTTP endpoints (a deterministic
fixture: what `fetch` comes back with for a given outbound request body).
Each handler result records the outbound provider calls it made, so
"fails before any network call" is the statement `calls = []`. -/

structure Env where
  openaiKey : Option (List Char)
  openaiModel : Option (List Char)
  googleKey : Option (List Char)
  googleModel : Option (List Char)

/-- The OpenAI chat-completions request body (`stream = none` models the
sync call, which simply omits the field). -/
structure OpenAIBody where
  model : List Char
  messages : List (List Char × List Char)
  temperature : Rat
  stream : Option Bool
  max_tokens : Nat

/-- The Google `generateText` request body. -/
structure GoogleBody where
  prompt : List Char
  temperature : Rat
  candidateCount : Nat
  maxOutputTokens : Nat

/-- Upstream response to a streaming request: a non-ok/absent-body HTTP
response (with its best-effort error text), or an ok response whose body
yields the given sequence of reads. -/
inductive ProvStream where
  | httpErr (status : Nat) (errText : List Char)
  | ok (reads : List ReadEv)

/-- Upstream response to a non-streaming request: non-ok HTTP status with
body text, or ok with the parsed JSON body. -/
inductive ProvFull where
  | httpErr (status : Nat) (errText : List Char)
  | ok (j : Json)

structure Providers where
  openaiStream : OpenAIBody → ProvStream
  openaiFull : OpenAIBody → ProvFull
  google : GoogleBody → ProvFull

/-- An outbound network call made by an adapter. -/
inductive Call where
  | openaiStream (b : OpenAIBody)
  | openaiFull (b : OpenAIBody)
  | google (b : GoogleBody)

/-- Inbound request body `{ model, prompt, temperature }`; `none` models
an absent field. -/
structure ChatRequest where
  model : Option (List Char)
  prompt : Option (List Char)
  temperature : Option Rat

/-- What a handler sends back: a JSON error object, a JSON `{text}` value,
or a chunked stream of write/close events. -/
inductive RespBody where
  | jsonErr (msg : List Char)
  | jsonText (t : Json)
  | streamBody (evs : List OutEv)

structure HResult where
  status : Nat
  body : RespBody
  calls : List Call

/-- Model of `!model || !prompt` for string-valued fields: absent or empty. -/
def falsyStr (o : Option (List Char)) : Bool := o.getD [] = []

/-- Default OpenAI model name (`process.env.OPENAI_MODEL || 'gpt-4o-mini'`). -/
def openaiModelOf (env : Env) : List Char :=
  match env.openaiModel with
  | some m => if m = [] then chars "gpt-4o-mini" else m
  | none => chars "gpt-4o-mini"

/-- The streaming request body built in `streamOpenAICompletion`. -/
def streamBodyOf (env : Env) (prompt : List Char) (temp : Option Rat) :
    OpenAIBody :=
  ⟨openaiModelOf env, [(chars "user", prompt)], temp.getD (2/10), some true, 800⟩

/-- The request body built in `callOpenAICompletionFull` (no `stream`
field, temperature fixed at `0.2`). -/
def fullBodyOf (env : Env) (prompt : List Char) : OpenAIBody :=
  ⟨openaiModelOf env, [(chars "user", prompt)], 2/10, none, 800⟩

/-- Decimal rendering of an HTTP status for error messages. -/
def natChars (n : Nat) : List Char := (toString n).data

/-- Model of `json.choices?.[0]?.message?.content ?? ''` as used by the sync OpenAI
adapter; plain (non-optional) access on a `null` body throws. -/
def callOpenAICompletionFull (env : Env) (pv : Providers)
    (prompt : List Char) : Except (List Char) Json × List Call :=
  match env.openaiKey with
  | none => (.error (chars "Error: Missing OPENAI_API_KEY"), [])
  | some _ =>
    let body := fullBodyOf env prompt
    match pv.openaiFull body with
    | .httpErr st t =>
      (.error (chars "Error: OpenAI error " ++ natChars st ++ chars ": " ++ t),
        [.openaiFull body])
    | .ok j =>
      match j with
      | .null =>
        -- `json.choices` on a null body raises a TypeError caught by the route
        (.error (chars "TypeError"), [.openaiFull body])
      | _ =>
        (.ok ((coalesce (messageContent j) (some (.str []))).getD .null),
          [.openaiFull body])

/-- The source expression `json?.candidates?.[0]?.content ?? ''` from `callGoogleGenerate`. -/
def googleText (j : Json) : Json :=
  (coalesce (((jsGet j (chars "candidates")).bind (jsIdx · 0)).bind
    (jsGet · (chars "content"))) (some (.str []))).getD .null

def callGoogleGenerate (env : Env) (pv : Providers) (prompt : List Char)
    (temp : Option Rat) : Except (List Char) Json × List Call :=
  match env.googleKey with
  | none => (.error (chars "Error: Missing GOOGLE_API_KEY"), [])
  | some _ =>
    let body : GoogleBody := ⟨prompt, temp.getD (2/10), 1, 800⟩
    match pv.google body with
    | .httpErr st t =>
      (.error (chars "Error: Google API error " ++ natChars st ++ chars ": " ++ t),
        [.google body])
    | .ok j => (.ok (googleText j), [.google body])

/-- Model of `prompt.split('').reverse().join('').slice(0, 800)`. -/
def revTrunc (prompt : List Char) : List Char := prompt.reverse.take 800

/-- The simulated `/api/chat` reply for an unknown model id. -/
def simulatedChat (model prompt : List Char) : List Char :=
  chars "Simulated reply for model \"" ++ model ++ chars "\":\n\n" ++
    revTrunc prompt

/-- The simulated `/api/chat-sync` reply for an unknown model id. -/
def simulatedSync (model prompt : List Char) : List Char :=
  chars "Simulated full response for " ++ model ++ chars ": " ++ revTrunc prompt

/-- Route `POST /api/chat`: validate, dispatch on the model id, and either relay
the OpenAI stream, forward the single Google chunk, or write the simulated
reply.  Errors thrown before any write surface as a 500 JSON error. -/
def chatHandler (env : Env) (pv : Providers) (p : Parse)
    (rq : ChatRequest) : HResult :=
  if falsyStr rq.model ∨ falsyStr rq.prompt then
    ⟨400, .jsonErr (chars "model and prompt are required"), []⟩
  else
    let model := rq.model.getD []
    let prompt := rq.prompt.getD []
    if model = chars "chatgpt" then
      match env.openaiKey with
      | none =>
        ⟨500, .streamBody [.write (chars "Missing OPENAI_API_KEY on server"),
          .close], []⟩
      | some _ =>
        let body := streamBodyOf env prompt rq.temperature
        match pv.openaiStream body with
        | .httpErr st et =>
          ⟨st, .streamBody [.write (chars "OpenAI error:\n" ++ et), .close],
            [.openaiStream body]⟩
        | .ok reads =>
          ⟨200, .streamBody (relay p reads).evs, [.openaiStream body]⟩
    else if model = chars "googleai" then
      match callGoogleGenerate env pv prompt rq.temperature with
      | (.error e, cs) => ⟨500, .jsonErr e, cs⟩
      | (.ok out, cs) =>
        match out with
        | .str s => ⟨200, .streamBody [.write s, .close], cs⟩
        | _ =>
          -- res.write on a non-string throws before headers are flushed
          ⟨500, .jsonErr (chars "TypeError"), cs⟩
    else
      ⟨200, .streamBody [.write (simulatedChat model prompt), .close], []⟩

/-- Route `POST /api/chat-sync`: validate, dispatch, and return `{ text }` as a
single JSON value (note: the handler destructures only `model` and
`prompt`; the client temperature is never read). -/
def chatSyncHandler (env : Env) (pv : Providers) (rq : ChatRequest) :
    HResult :=
  if falsyStr rq.model ∨ falsyStr rq.prompt then
    ⟨400, .jsonErr (chars "model and prompt required"), []⟩
  else
    let model := rq.model.getD []
    let prompt := rq.prompt.getD []
    if model = chars "chatgpt" then
      match callOpenAICompletionFull env pv prompt with
      | (.error e, cs) => ⟨500, .jsonErr e, cs⟩
      | (.ok t, cs) => ⟨200, .jsonText t, cs⟩
    else if model = chars "googleai" then
      match callGoogleGenerate env pv prompt none with
      | (.error e, cs) => ⟨500, .jsonErr e, cs⟩
      | (.ok t, cs) => ⟨200, .jsonText t, cs⟩
    else
      ⟨200, .jsonText (.str (simulatedSync model prompt)), []⟩

/-! ## Provider stream fixtures: event frames over the wire -/

/-- One SSE event line `data: <payload>`. -/
def dataFrame (s : List Char) : List Char := chars "data: " ++ s

/-- Frames on the wire, each terminated by the `\n\n` delimiter. -/
def serializeFrames (fs : List (List Char)) : List Char :=
  (fs.map (· ++ ['\n', '\n'])).flatten

/-- A frame that the delimiter split reproduces exactly: contains no
delimiter and does not end in `\n` (else the delimiter would be found one
character early). -/
def cleanFrame (f : List Char) : Bool := noDD (f ++ ['\n'])

/-- The delta-streaming payload shape
`{"choices":[{"delta":{"content": t}}]}`. -/
def deltaJson (t : List Char) : Json :=
  .obj [(chars "choices",
    .arr [.obj [(chars "delta", .obj [(chars "content", .str t)])]])]

/-- The full-message payload shape
`{"choices":[{"message":{"content": t}}]}`. -/
def fullJson (t : List Char) : Json :=
  .obj [(chars "choices",
    .arr [.obj [(chars "message", .obj [(chars "content", .str t)])]])]

theorem noDD_of_nolf {l : List Char} (h : '\n' ∉ l) :
    noDD (l ++ ['\n']) = true := by
  induction l with
  | nil => rfl
  | cons c l ih =>
    have hc : ¬c = '\n' := fun hc => h (hc ▸ List.mem_cons_self c l)
    have hl : '\n' ∉ l := fun hm => h (List.mem_cons_of_mem c hm)
    rw [List.cons_append]
    exact noDD_cons (fun hp => hc hp.1) (ih hl)

theorem splitDD_frame (f rest : List Char) (h : cleanFrame f = true) :
    splitDD (f ++ '\n' :: '\n' :: rest) = f :: splitDD rest := by
  induction f with
  | nil => exact splitDD_dd rest
  | cons c f2 ih =>
    have h2 : cleanFrame f2 = true := noDD_tail (s := f2 ++ ['\n']) h
    have hcond : ¬(c = '\n' ∧ (f2 ++ '\n' :: '\n' :: rest).head? = some '\n') := by
      rintro ⟨hc, hd⟩
      subst hc
      cases f2 with
      | nil =>
        simp only [cleanFrame, List.cons_append, List.nil_append] at h
        exact absurd h (by rw [noDD.eq_def]; simp)
      | cons d f3 =>
        simp only [List.cons_append, List.head?_cons, Option.some.injEq] at hd
        subst hd
        simp only [cleanFrame, List.cons_append] at h
        exact absurd h (by rw [noDD.eq_def]; simp)
    rw [List.cons_append, splitDD_cons c _ hcond, ih h2]
    rfl

theorem splitDD_serialize (fs : List (List Char))
    (h : ∀ f ∈ fs, cleanFrame f = true) :
    splitDD (serializeFrames fs) = fs ++ [[]] := by
  induction fs with
  | nil => rfl
  | cons f fs ih =>
    have hser : serializeFrames (f :: fs) =
        f ++ '\n' :: '\n' :: serializeFrames fs := by
      simp [serializeFrames, List.append_assoc]
    rw [hser, splitDD_frame f _ (h f (List.mem_cons_self f fs)),
      ih (fun g hg => h g (List.mem_cons_of_mem f hg)), List.cons_append]

theorem splitLines_cons (c : Char) (s : List Char)
    (h1 : ¬(c = '\r' ∧ s.head? = some '\n')) (h2 : ¬c = '\n') :
    splitLines (c :: s) = consHead c (splitLines s) := by
  rw [splitLines.eq_def]
  split
  · rename_i rest heq
    injection heq with ha hb
    exact absurd ⟨ha, by rw [hb]; rfl⟩ h1
  · rename_i rest heq
    injection heq with ha hb
    exact absurd ha h2
  · rename_i c' rest heq
    injection heq with ha hb
    subst ha; subst hb; rfl
  · rename_i heq
    cases heq

theorem splitLines_nolf {l : List Char} (h : '\n' ∉ l) :
    splitLines l = [l] := by
  induction l with
  | nil => rfl
  | cons c s ih =>
    have hc : ¬c = '\n' := fun hc => h (hc ▸ List.mem_cons_self c s)
    have hs : '\n' ∉ s := fun hm => h (List.mem_cons_of_mem c hm)
    have hcr : ¬(c = '\r' ∧ s.head? = some '\n') := by
      rintro ⟨hcr, hd⟩
      cases s with
      | nil => simp at hd
      | cons d s2 =>
        simp only [List.head?_cons, Option.some.injEq] at hd
        exact hs (hd ▸ List.mem_cons_self d s2)
    rw [splitLines_cons c s hcr hc, ih hs]
    rfl

theorem processLine_data (p : Parse) (s : List Char)
    (hws : s.dropWhile isJsWs = s) :
    processLine p (dataFrame s) =
      if s = chars "[DONE]" then .halt
      else
        match p s with
        | none => .skip
        | some j =>
          match emitOf (extractText j) with
          | some t => .emit t
          | none => .skip := by
  have h1 : startsData (dataFrame s) = true := rfl
  have h2 : ((dataFrame s).drop 5).dropWhile isJsWs = s := by
    show (' ' :: s).dropWhile isJsWs = s
    rw [List.dropWhile_cons]
    simp [isJsWs, hws]
  simp only [processLine, h1, if_true, h2]

theorem extract_delta (t : List Char) :
    extractText (deltaJson t) = some (.str t) := rfl

theorem message_full (t : List Char) :
    messageContent (fullJson t) = some (.str t) := rfl

/-- A well-formed single-line delta frame contributes its (non-empty)
text and never halts. -/
theorem processFrames_delta_cons (p : Parse) (s t : List Char)
    (fs : List (List Char))
    (hp : p s = some (deltaJson t)) (hlf : '\n' ∉ s)
    (hws : s.dropWhile isJsWs = s) (hnd : s ≠ chars "[DONE]") :
    processFrames p (dataFrame s :: fs) =
      ((if t = [] then [] else [t]) ++ (processFrames p fs).1,
        (processFrames p fs).2) := by
  have hlf' : '\n' ∉ dataFrame s := by
    intro hm
    rcases List.mem_append.1 hm with hm | hm
    · revert hm; decide
    · exact hlf hm
  have hline : processLine p (dataFrame s) =
      (match emitOf (some (.str t)) with
        | some u => LineRes.emit u
        | none => LineRes.skip) := by
    rw [processLine_data p s hws, if_neg hnd, hp]
    simp only [extract_delta]
  have hPL : ∀ l, processLines p [l] =
      (match processLine p l with
        | .halt => ([], true)
        | .emit u => ([u], false)
        | .skip => ([], false)) := by
    intro l
    rcases hl : processLine p l with _ | _ | u <;> simp [processLines, hl]
  have hframe : processLines p (splitLines (dataFrame s)) =
      ((if t = [] then [] else [t]), false) := by
    rw [splitLines_nolf hlf', hPL (dataFrame s), hline]
    by_cases ht : t = []
    · simp [emitOf, ht]
    · simp [emitOf, ht]
  simp only [processFrames, hframe]
  by_cases ht : t = [] <;> simp [ht]

/-- The sentinel frame halts immediately. -/
theorem processFrames_done (fs : List (List Char)) (p : Parse) :
    processFrames p (dataFrame (chars "[DONE]") :: fs) = ([], true) := by
  have hone : processLines p (splitLines (dataFrame (chars "[DONE]"))) =
      ([], true) := rfl
  simp [processFrames, hone]

/-- Processing a list of well-formed single-line delta frames emits
exactly the non-empty texts, in order, and never halts. -/
theorem processFrames_deltas (p : Parse) (ss ts : List (List Char))
    (hlen : ss.length = ts.length)
    (hp : ∀ pr ∈ ss.zip ts, p pr.1 = some (deltaJson pr.2))
    (hcl : ∀ s ∈ ss, '\n' ∉ s ∧ s.dropWhile isJsWs = s ∧ s ≠ chars "[DONE]") :
    processFrames p (ss.map dataFrame) =
      (ts.filter (· ≠ []), false) := by
  induction ss generalizing ts with
  | nil =>
    cases ts with
    | nil => rfl
    | cons t ts => simp at hlen
  | cons s ss ih =>
    cases ts with
    | nil => simp at hlen
    | cons t ts =>
      rcases hcl s (List.mem_cons_self s ss) with ⟨hlf, hws, hnd⟩
      have hps : p s = some (deltaJson t) :=
        hp (s, t) (by simp [List.zip_cons_cons])
      rw [List.map_cons,
        processFrames_delta_cons p s t _ hps hlf hws hnd,
        ih ts (by simpa using hlen)
          (fun pr hpr => hp pr (by simp [List.zip_cons_cons, hpr]))
          (fun u hu => hcl u (List.mem_cons_of_mem s hu))]
      by_cases ht : t = []
      · simp [ht]
      · simp [ht, List.filter_cons]

theorem flatten_filter_ne_nil (ts : List (List Char)) :
    (ts.filter (· ≠ [])).flatten = ts.flatten := by
  induction ts with
  | nil => rfl
  | cons t ts ih =>
    simp only [List.filter_cons, List.flatten_cons]
    by_cases ht : t = []
    · rw [if_neg (by simp [ht]), ih, ht, List.nil_append]
    · rw [if_pos (by simp [ht]), List.flatten_cons, ih]

/-- A full delta-framed provider stream (well-formed frames, closed by the
sentinel), delivered in any number of reads, relays exactly the non-empty
delta texts in order and then closes. -/
theorem relay_delta_stream (p : Parse) (ss ts : List (List Char))
    (cs : List (List Nat))
    (hlen : ss.length = ts.length)
    (hp : ∀ pr ∈ ss.zip ts, p pr.1 = some (deltaJson pr.2))
    (hcl : ∀ s ∈ ss, '\n' ∉ s ∧ s.dropWhile isJsWs = s ∧ s ≠ chars "[DONE]")
    (hdec : (utf8Run utf8Init cs.flatten).2 =
      serializeFrames (ss.map dataFrame ++ [dataFrame (chars "[DONE]")])) :
    relay p (cs.map .chunk) =
      ⟨(ts.filter (· ≠ [])).map .write ++ [.close], true⟩ := by
  rw [relay_chunks, hdec]
  have hclean : ∀ f ∈ ss.map dataFrame ++ [dataFrame (chars "[DONE]")],
      cleanFrame f = true := by
    intro f hf
    rcases List.mem_append.1 hf with hf | hf
    · rcases List.mem_map.1 hf with ⟨s, hs, rfl⟩
      refine noDD_of_nolf ?_
      intro hm
      rcases List.mem_append.1 hm with hm | hm
      · revert hm; decide
      · exact (hcl s hs).1 hm
    · simp only [List.mem_singleton] at hf
      subst hf
      decide
  rw [splitDD_serialize _ hclean, frontL_append_ne_nil _ (by simp)]
  rw [show frontL [([] : List Char)] = [] from rfl, List.append_nil]
  have hdeltas := processFrames_deltas p ss ts hlen hp hcl
  rw [processFrames_append_nohalt p _ _ (by rw [hdeltas]), hdeltas,
    processFrames_done]
  simp

/-- The fragment carried by a stream event, if any. -/
def fragOf : OutEv → Option (List Char)
  | .write s => some s
  | .close => none

/-- The concatenation, in emission order, of all text fragments a handler
result writes to its (chunked) response body. -/
def writtenText (r : HResult) : List Char :=
  match r.body with
  | .streamBody evs => (evs.filterMap fragOf).flatten
  | _ => []

/-- The string value of the `text` field of a JSON `{text}` response. -/
def syncTextOf (r : HResult) : Option (List Char) :=
  match r.body with
  | .jsonText (.str s) => some s
  | _ => none

theorem filterMap_fragOf (l : List (List Char)) :
    (l.map OutEv.write ++ [OutEv.close]).filterMap fragOf = l := by
  induction l with
  | nil => rfl
  | cons x xs ih =>
    simp only [List.map_cons, List.cons_append, List.filterMap_cons, fragOf,
      ih]

/-- The everywhere-failing parse oracle. -/
def pNone : Parse := fun _ => none

/-- An environment with no credentials at all. -/
def envErr : Env := ⟨none, none, none, none⟩

/-- A (deterministic) provider world whose every request fails. -/
def pvErr : Providers :=
  ⟨fun _ => .httpErr 500 [], fun _ => .httpErr 500 [],
    fun _ => .httpErr 500 []⟩

/-- Counterexample to claim C1 as stated: for an unknown model id the two
routes build their placeholder texts with different fixed headers
(`Simulated reply for model "m":` vs `Simulated full response for m:`),
so the concatenated stream of `POST /api/chat` differs from the `text`
field of `POST /api/chat-sync` on the identical `{model, prompt}` input,
even with fully deterministic provider behaviour. -/
theorem chat_stream_matches_sync_counterexample :
    decide (some (writtenText (chatHandler envErr pvErr pNone
        ⟨some (chars "copilot"), some (chars "Hi"), none⟩)) =
      syncTextOf (chatSyncHandler envErr pvErr
        ⟨some (chars "copilot"), some (chars "Hi"), none⟩)) = false := by
  have h1 : writtenText (chatHandler envErr pvErr pNone
      ⟨some (chars "copilot"), some (chars "Hi"), none⟩) =
      chars "Simulated reply for model \"copilot\":\n\niH" := rfl
  have h2 : syncTextOf (chatSyncHandler envErr pvErr
      ⟨some (chars "copilot"), some (chars "Hi"), none⟩) =
      some (chars "Simulated full response for copilot: iH") := rfl
  rw [h1, h2]
  decide

/-- Claim C1 (amended): for the provider-dispatched models the streamed
fragments concatenate to the sync `text` field on the identical
`{model, prompt}` input: for `chatgpt` under a deterministic delta-stream
fixture consistent with the full response, and for `googleai` under a
string-content response (with no client temperature, both routes build
the identical outbound body).  For every other model id the property
fails — the routes use different placeholder headers (see the
counterexample). -/
theorem chat_stream_matches_sync (env : Env) (pv : Providers) (p : Parse)
    (prompt key gkey : List Char) (temp temp' : Option Rat)
    (ss ts : List (List Char)) (cs : List (List Nat)) (gj : Json)
    (gtext : List Char)
    (hkey : env.openaiKey = some key)
    (hgkey : env.googleKey = some gkey)
    (hprompt : prompt ≠ [])
    (hlen : ss.length = ts.length)
    (hp : ∀ pr ∈ ss.zip ts, p pr.1 = some (deltaJson pr.2))
    (hcl : ∀ s ∈ ss, '\n' ∉ s ∧ s.dropWhile isJsWs = s ∧ s ≠ chars "[DONE]")
    (hstream : pv.openaiStream (streamBodyOf env prompt temp) =
      .ok (cs.map .chunk))
    (hdec : (utf8Run utf8Init cs.flatten).2 =
      serializeFrames (ss.map dataFrame ++ [dataFrame (chars "[DONE]")]))
    (hfull : pv.openaiFull (fullBodyOf env prompt) = .ok (fullJson ts.flatten))
    (hgoog : pv.google ⟨prompt, 2/10, 1, 800⟩ = .ok gj)
    (hgtext : googleText gj = .str gtext) :
    chatHandler env pv p ⟨some (chars "chatgpt"), some prompt, temp⟩ =
      ⟨200, .streamBody ((ts.filter (· ≠ [])).map .write ++ [.close]),
        [.openaiStream (streamBodyOf env prompt temp)]⟩ ∧
    chatSyncHandler env pv ⟨some (chars "chatgpt"), some prompt, temp'⟩ =
      ⟨200, .jsonText (.str ts.flatten), [.openaiFull (fullBodyOf env prompt)]⟩ ∧
    writtenText (chatHandler env pv p
        ⟨some (chars "chatgpt"), some prompt, temp⟩) = ts.flatten ∧
    syncTextOf (chatSyncHandler env pv
        ⟨some (chars "chatgpt"), some prompt, temp'⟩) = some ts.flatten ∧
    chatHandler env pv p ⟨some (chars "googleai"), some prompt, none⟩ =
      ⟨200, .streamBody [.write gtext, .close], [.google ⟨prompt, 2/10, 1, 800⟩]⟩ ∧
    chatSyncHandler env pv ⟨some (chars "googleai"), some prompt, none⟩ =
      ⟨200, .jsonText (.str gtext), [.google ⟨prompt, 2/10, 1, 800⟩]⟩ ∧
    writtenText (chatHandler env pv p
        ⟨some (chars "googleai"), some prompt, none⟩) = gtext ∧
    syncTextOf (chatSyncHandler env pv
        ⟨some (chars "googleai"), some prompt, none⟩) = some gtext := by
  have hval : ¬(falsyStr (some (chars "chatgpt")) = true ∨
      falsyStr (some prompt) = true) := by
    rintro (h | h)
    · revert h; decide
    · simp [falsyStr] at h
      exact hprompt h
  have hvalG : ¬(falsyStr (some (chars "googleai")) = true ∨
      falsyStr (some prompt) = true) := by
    rintro (h | h)
    · revert h; decide
    · simp [falsyStr] at h
      exact hprompt h
  have hA : chatHandler env pv p ⟨some (chars "chatgpt"), some prompt, temp⟩ =
      ⟨200, .streamBody ((ts.filter (· ≠ [])).map .write ++ [.close]),
        [.openaiStream (streamBodyOf env prompt temp)]⟩ := by
    simp only [chatHandler]
    rw [if_neg hval]
    simp only [Option.getD_some, if_pos rfl, hkey, hstream,
      relay_delta_stream p ss ts cs hlen hp hcl hdec]
    simp
  have hB : chatSyncHandler env pv ⟨some (chars "chatgpt"), some prompt, temp'⟩ =
      ⟨200, .jsonText (.str ts.flatten),
        [.openaiFull (fullBodyOf env prompt)]⟩ := by
    simp only [chatSyncHandler]
    rw [if_neg hval]
    simp only [Option.getD_some, if_pos rfl, callOpenAICompletionFull, hkey,
      hfull, message_full]
    simp [fullJson, coalesce]
  have hD : chatHandler env pv p ⟨some (chars "googleai"), some prompt, none⟩ =
      ⟨200, .streamBody [.write gtext, .close],
        [.google ⟨prompt, 2/10, 1, 800⟩]⟩ := by
    simp only [chatHandler]
    rw [if_neg hvalG]
    simp only [Option.getD_some]
    rw [if_neg (show ¬chars "googleai" = chars "chatgpt" by decide),
      if_pos trivial]
    simp only [callGoogleGenerate, hgkey, Option.getD_none, hgoog, hgtext]
  have hE : chatSyncHandler env pv ⟨some (chars "googleai"), some prompt, none⟩ =
      ⟨200, .jsonText (.str gtext), [.google ⟨prompt, 2/10, 1, 800⟩]⟩ := by
    simp only [chatSyncHandler]
    rw [if_neg hvalG]
    simp only [Option.getD_some]
    rw [if_neg (show ¬chars "googleai" = chars "chatgpt" by decide),
      if_pos trivial]
    simp only [callGoogleGenerate, hgkey, Option.getD_none, hgoog, hgtext]
  refine ⟨hA, hB, ?_, ?_, hD, hE, ?_, ?_⟩
  · rw [hA, writtenText]
    simp only [filterMap_fragOf]
    exact flatten_filter_ne_nil ts
  · rw [hB]
    rfl
  · rw [hD, writtenText]
    simp [fragOf]
  · rw [hE]
    rfl

/-! ## Chunking invariance, sentinel handling, stream termination -/

/-- Claim C2: the relay appends each incrementally decoded read to one
growing buffer, splits on the `\n\n` delimiter, processes complete frames
and retains the trailing partial segment (this is the definition of
`relayGo`), so its output depends only on the concatenation of the bytes
read: any two chunkings of the same byte stream — including splits inside
a multi-byte character, a JSON payload, or the delimiter — produce the
same fragments, in the same order, and the same sentinel status. -/
theorem relay_chunking_invariant (p : Parse) (c1 c2 : List (List Nat))
    (h : c1.flatten = c2.flatten) :
    relay p (c1.map .chunk) = relay p (c2.map .chunk) := by
  rw [relay_chunks, relay_chunks, h]

/-- Witness for C2: a 3-byte character (the euro sign) split across two
reads inside the character decodes identically to one-shot delivery. -/
theorem relay_chunking_invariant_witness :
    relay pNone ([[0xe2], [0x82, 0xac]].map .chunk) =
      relay pNone ([[0xe2, 0x82, 0xac]].map .chunk) :=
  relay_chunking_invariant pNone [[0xe2], [0x82, 0xac]]
    [[0xe2, 0x82, 0xac]] (by decide)

/-- Number of `close` events in an outbound trace. -/
def countClose (evs : List OutEv) : Nat := evs.count .close

theorem countClose_writes (l : List (List Char)) :
    countClose (l.map .write ++ [.close]) = 1 := by
  induction l with
  | nil => rfl
  | cons x xs ih =>
    simpa [countClose, List.count_cons] using ih

theorem relayGo_halted_append (p : Parse) (st : Utf8State) (buf : List Char)
    (evts more : List ReadEv)
    (h : (relayGo p st buf evts).halted = true) :
    relayGo p st buf (evts ++ more) = relayGo p st buf evts := by
  induction evts generalizing st buf with
  | nil => simp [relayGo] at h
  | cons e rest ih =>
    cases e with
    | readErr => simp [relayGo] at h
    | chunk bs =>
      by_cases hc : (processFrames p
          (frontL (splitDD (buf ++ (utf8Run st bs).2)))).2 = true
      · simp only [List.cons_append, relayGo, hc, if_true]
      · simp only [List.cons_append, relayGo, hc, if_false,
          Bool.false_eq_true, List.append_eq] at h ⊢
        rw [ih _ _ (by simpa using h)]

/-- Bytes arriving after the sentinel inside the same (or a longer) read
are discarded: they never change the output of a halting run. -/
theorem relay_halt_bytes (p : Parse) (b extra : List Nat)
    (h : (relay p [.chunk b]).halted = true) :
    relay p [.chunk (b ++ extra)] = relay p [.chunk b] := by
  have hb := relay_chunks p [b]
  have hbe := relay_chunks p [b ++ extra]
  simp only [List.map_cons, List.map_nil, List.flatten_cons, List.flatten_nil,
    List.append_nil] at hb hbe
  rw [hb] at h
  simp only at h
  rw [hb, hbe, utf8Run_append utf8Init b extra]
  simp only
  rw [splitDD_append, frontL_append_ne_nil _ (splitDD_ne_nil _),
    processFrames_append_halt p _ _ h]

/-- Claim C3: once a frame's payload equals the `[DONE]` sentinel the
relay returns: reads after the halting one are never made and change
nothing, bytes already buffered after the sentinel frame are discarded,
and the outbound trace holds exactly one close. -/
theorem relay_sentinel_stops (p : Parse) (evts more : List ReadEv)
    (h : (relay p evts).halted = true) :
    relay p (evts ++ more) = relay p evts ∧
    countClose (relay p (evts ++ more)).evs = 1 ∧
    (∀ b extra, (relay p [.chunk b]).halted = true →
      relay p [.chunk (b ++ extra)] = relay p [.chunk b]) := by
  refine ⟨relayGo_halted_append p utf8Init [] evts more h, ?_,
    fun b extra hb => relay_halt_bytes p b extra hb⟩
  rw [relay, relayGo_eq_frags]
  exact countClose_writes _

/-- Witness for C3: a sentinel frame followed by an extra buffered frame. -/
theorem relay_sentinel_stops_witness :
    relay pNone [.chunk ((serializeFrames [dataFrame (chars "[DONE]")]).map
        Char.toNat)] =
      relay pNone ([.chunk ((serializeFrames [dataFrame (chars "[DONE]")]).map
        Char.toNat)] ++ [.chunk ((serializeFrames [dataFrame (chars "x")]).map
        Char.toNat)]) ∧
    countClose (relay pNone [.chunk ((serializeFrames
      [dataFrame (chars "[DONE]")]).map Char.toNat)]).evs = 1 := by
  have h := relay_sentinel_stops pNone
    [.chunk ((serializeFrames [dataFrame (chars "[DONE]")]).map Char.toNat)]
    [.chunk ((serializeFrames [dataFrame (chars "x")]).map Char.toNat)]
    (by decide)
  exact ⟨h.1.symm, by rw [← h.1]; exact h.2.1⟩

/-- Claim C9: every relay run — sentinel, natural end-of-stream without a
sentinel, or a read error — produces exactly the extracted fragments as
writes, in extraction order, followed by a single close; the outbound
stream never stays open and never closes twice. -/
theorem relay_always_terminates (p : Parse) (evts : List ReadEv) :
    (relay p evts).evs = (relayFrags p evts).1.map .write ++ [.close] ∧
    countClose (relay p evts).evs = 1 := by
  constructor
  · rw [relay, relayFrags, relayGo_eq_frags]
  · rw [relay, relayGo_eq_frags]
    exact countClose_writes _

/-! ## Malformed payloads and delta extraction -/

/-- A single-line `data:` frame whose payload fails to parse emits nothing
and does not halt: the frame is skipped and processing continues. -/
theorem processFrames_malformed_cons (p : Parse) (g : List Char)
    (fs : List (List Char))
    (hlf : '\n' ∉ g) (hws : g.dropWhile isJsWs = g)
    (hnd : g ≠ chars "[DONE]") (hpg : p g = none) :
    processFrames p (dataFrame g :: fs) = processFrames p fs := by
  have hlf' : '\n' ∉ dataFrame g := by
    intro hm
    rcases List.mem_append.1 hm with hm | hm
    · revert hm; decide
    · exact hlf hm
  have hline : processLine p (dataFrame g) = .skip := by
    rw [processLine_data p g hws, if_neg hnd, hpg]
  have hframe : processLines p (splitLines (dataFrame g)) = ([], false) := by
    rw [splitLines_nolf hlf']
    simp [processLines, hline]
  simp [processFrames, hframe]

/-- A single-line `data:` frame with a parseable payload `j` emits exactly
the non-empty string extracted from `j` (if any) and does not halt. -/
theorem processFrames_parsed_cons (p : Parse) (g : List Char) (j : Json)
    (fs : List (List Char))
    (hlf : '\n' ∉ g) (hws : g.dropWhile isJsWs = g)
    (hnd : g ≠ chars "[DONE]") (hpg : p g = some j) :
    processFrames p (dataFrame g :: fs) =
      ((emitOf (extractText j)).toList ++ (processFrames p fs).1,
        (processFrames p fs).2) := by
  have hlf' : '\n' ∉ dataFrame g := by
    intro hm
    rcases List.mem_append.1 hm with hm | hm
    · revert hm; decide
    · exact hlf hm
  have hline : processLine p (dataFrame g) =
      (match emitOf (extractText j) with
        | some u => LineRes.emit u
        | none => LineRes.skip) := by
    rw [processLine_data p g hws, if_neg hnd, hpg]
  have hPL : ∀ l, processLines p [l] =
      (match processLine p l with
        | .halt => ([], true)
        | .emit u => ([u], false)
        | .skip => ([], false)) := by
    intro l
    rcases hl : processLine p l with _ | _ | u <;> simp [processLines, hl]
  have hframe : processLines p (splitLines (dataFrame g)) =
      ((emitOf (extractText j)).toList, false) := by
    rw [splitLines_nolf hlf', hPL (dataFrame g), hline]
    rcases emitOf (extractText j) with _ | u <;> rfl
  simp [processFrames, hframe]

/-- Claim C4: a malformed (unparseable) payload frame sitting between
well-formed frames is skipped and only it: the relayed output over the
byte stream carrying the malformed frame equals the output over the same
stream with that frame removed — every fragment before and after it is
still emitted and no error reaches the caller. -/
theorem relay_malformed_skipped (p : Parse) (fs1 fs2 : List (List Char))
    (g : List Char) (b1 b2 : List (List Nat))
    (hcl : ∀ f ∈ fs1 ++ fs2, cleanFrame f = true)
    (hlf : '\n' ∉ g) (hws : g.dropWhile isJsWs = g)
    (hnd : g ≠ chars "[DONE]") (hpg : p g = none)
    (h1 : (utf8Run utf8Init b1.flatten).2 =
      serializeFrames (fs1 ++ [dataFrame g] ++ fs2))
    (h2 : (utf8Run utf8Init b2.flatten).2 = serializeFrames (fs1 ++ fs2)) :
    relay p (b1.map .chunk) = relay p (b2.map .chunk) := by
  have hclg : cleanFrame (dataFrame g) = true := by
    refine noDD_of_nolf ?_
    intro hm
    rcases List.mem_append.1 hm with hm | hm
    · revert hm; decide
    · exact hlf hm
  have hcl1 : ∀ f ∈ fs1 ++ [dataFrame g] ++ fs2, cleanFrame f = true := by
    intro f hf
    rcases List.mem_append.1 hf with hf | hf
    · rcases List.mem_append.1 hf with hf | hf
      · exact hcl f (List.mem_append.2 (Or.inl hf))
      · simp only [List.mem_singleton] at hf
        subst hf
        exact hclg
    · exact hcl f (List.mem_append.2 (Or.inr hf))
  rw [relay_chunks, relay_chunks, h1, h2,
    splitDD_serialize _ hcl1, splitDD_serialize _ hcl,
    frontL_append_ne_nil _ (b := [[]]) (by simp),
    frontL_append_ne_nil _ (b := [[]]) (by simp),
    show frontL [([] : List Char)] = [] from rfl,
    List.append_nil, List.append_nil]
  have hmid : fs1 ++ [dataFrame g] ++ fs2 = fs1 ++ (dataFrame g :: fs2) := by
    simp
  rw [hmid]
  by_cases hh : (processFrames p fs1).2 = true
  · rw [processFrames_append_halt p _ _ hh, processFrames_append_halt p _ _ hh]
  · rw [processFrames_append_nohalt p _ _ (Bool.not_eq_true _ ▸ hh),
      processFrames_append_nohalt p _ _ (Bool.not_eq_true _ ▸ hh),
      processFrames_malformed_cons p g fs2 hlf hws hnd hpg]

/-- Claim C5: for a well-formed non-sentinel payload `j`, the relay emits
`delta.content` when it is a non-empty string, falls back to
`message.content` when the delta path is absent, and emits a fragment if
and only if the extracted value is a non-empty string. -/
theorem relay_extracts_delta (p : Parse) (g : List Char) (j : Json)
    (bs : List (List Nat))
    (hlf : '\n' ∉ g) (hws : g.dropWhile isJsWs = g)
    (hnd : g ≠ chars "[DONE]") (hpg : p g = some j)
    (hdec : (utf8Run utf8Init bs.flatten).2 = serializeFrames [dataFrame g]) :
    relay p (bs.map .chunk) =
      ⟨(emitOf (extractText j)).toList.map .write ++ [.close], false⟩ ∧
    (∀ s, deltaContent j = some (.str s) → s ≠ [] →
      (relay p (bs.map .chunk)).evs = [.write s, .close]) ∧
    (∀ s, deltaContent j = none → messageContent j = some (.str s) → s ≠ [] →
      (relay p (bs.map .chunk)).evs = [.write s, .close]) ∧
    (emitOf (extractText j) = none → (relay p (bs.map .chunk)).evs = [.close]) := by
  have hclg : cleanFrame (dataFrame g) = true := by
    refine noDD_of_nolf ?_
    intro hm
    rcases List.mem_append.1 hm with hm | hm
    · revert hm; decide
    · exact hlf hm
  have hbase : relay p (bs.map .chunk) =
      ⟨(emitOf (extractText j)).toList.map .write ++ [.close], false⟩ := by
    rw [relay_chunks, hdec,
      splitDD_serialize _ (by
        intro f hf
        simp only [List.mem_singleton] at hf
        subst hf
        exact hclg),
      frontL_append_ne_nil _ (b := [[]]) (by simp)]
    rw [show frontL [([] : List Char)] = [] from rfl, List.append_nil,
      processFrames_parsed_cons p g j [] hlf hws hnd hpg]
    simp [processFrames]
  refine ⟨hbase, ?_, ?_, ?_⟩
  · intro s hds hsne
    rw [hbase]
    have : extractText j = some (.str s) := by
      rw [extractText, hds]
      rfl
    simp [this, emitOf, hsne]
  · intro s hdn hms hsne
    rw [hbase]
    have : extractText j = some (.str s) := by
      rw [extractText, hdn, hms]
      rfl
    simp [this, emitOf, hsne]
  · intro hnone
    rw [hbase, hnone]
    rfl

/-! ## Router-level claims: validation, unknown models, credentials,
temperature isolation -/

/-- Claim C6: a request with an absent or empty `model` or `prompt` is
rejected by both routes with status 400 and a JSON error body, with no
outbound provider call and no partial output written. -/
theorem validation_rejects (env : Env) (pv : Providers) (p : Parse)
    (rq : ChatRequest)
    (h : falsyStr rq.model = true ∨ falsyStr rq.prompt = true) :
    chatHandler env pv p rq =
      ⟨400, .jsonErr (chars "model and prompt are required"), []⟩ ∧
    chatSyncHandler env pv rq =
      ⟨400, .jsonErr (chars "model and prompt required"), []⟩ := by
  constructor
  · rw [chatHandler, if_pos h]
  · rw [chatSyncHandler, if_pos h]

/-- Witness for C6: an empty prompt is rejected by both routes. -/
theorem validation_rejects_witness :
    chatHandler ⟨none, none, none, none⟩
        ⟨fun _ => .httpErr 500 [], fun _ => .httpErr 500 [],
          fun _ => .httpErr 500 []⟩ pNone
        ⟨some (chars "chatgpt"), some [], none⟩ =
      ⟨400, .jsonErr (chars "model and prompt are required"), []⟩ ∧
    chatSyncHandler ⟨none, none, none, none⟩
        ⟨fun _ => .httpErr 500 [], fun _ => .httpErr 500 [],
          fun _ => .httpErr 500 []⟩
        ⟨some (chars "chatgpt"), some [], none⟩ =
      ⟨400, .jsonErr (chars "model and prompt required"), []⟩ :=
  validation_rejects ⟨none, none, none, none⟩
    ⟨fun _ => .httpErr 500 [], fun _ => .httpErr 500 [],
      fun _ => .httpErr 500 []⟩ pNone
    ⟨some (chars "chatgpt"), some [], none⟩ (Or.inr (by decide))

/-- Claim C7: an unknown model id yields, on both routes, a 200 response
with the deterministic simulated text — a fixed header followed by the
reversed prompt truncated to 800 characters — independent of environment,
providers and parser (no provider is contacted), and the text is never
empty. -/
theorem unknown_model_simulated (env : Env) (pv : Providers) (p : Parse)
    (model prompt : List Char) (temp : Option Rat)
    (hm : model ≠ []) (hp : prompt ≠ [])
    (h1 : model ≠ chars "chatgpt") (h2 : model ≠ chars "googleai") :
    chatHandler env pv p ⟨some model, some prompt, temp⟩ =
      ⟨200, .streamBody [.write (simulatedChat model prompt), .close], []⟩ ∧
    chatSyncHandler env pv ⟨some model, some prompt, temp⟩ =
      ⟨200, .jsonText (.str (simulatedSync model prompt)), []⟩ ∧
    simulatedChat model prompt =
      chars "Simulated reply for model \"" ++ model ++ chars "\":\n\n" ++
        prompt.reverse.take 800 ∧
    simulatedSync model prompt =
      chars "Simulated full response for " ++ model ++ chars ": " ++
        prompt.reverse.take 800 ∧
    simulatedChat model prompt ≠ [] ∧
    simulatedSync model prompt ≠ [] := by
  have hval : ¬(falsyStr (some model) = true ∨ falsyStr (some prompt) = true) := by
    rintro (h | h) <;> simp [falsyStr] at h
    · exact hm h
    · exact hp h
  refine ⟨?_, ?_, rfl, rfl, by simp [simulatedChat, chars], by
    simp [simulatedSync, chars]⟩
  · rw [chatHandler, if_neg hval]
    simp only [Option.getD_some]
    rw [if_neg h1, if_neg h2]
  · rw [chatSyncHandler, if_neg hval]
    simp only [Option.getD_some]
    rw [if_neg h1, if_neg h2]

/-- Witness for C7: model id `copilot`. -/
theorem unknown_model_simulated_witness :
    chatHandler ⟨none, none, none, none⟩
        ⟨fun _ => .httpErr 500 [], fun _ => .httpErr 500 [],
          fun _ => .httpErr 500 []⟩ pNone
        ⟨some (chars "copilot"), some (chars "Hi"), none⟩ =
      ⟨200, .streamBody
        [.write (simulatedChat (chars "copilot") (chars "Hi")), .close], []⟩ ∧
    chatSyncHandler ⟨none, none, none, none⟩
        ⟨fun _ => .httpErr 500 [], fun _ => .httpErr 500 [],
          fun _ => .httpErr 500 []⟩
        ⟨some (chars "copilot"), some (chars "Hi"), none⟩ =
      ⟨200, .jsonText (.str (simulatedSync (chars "copilot") (chars "Hi"))),
        []⟩ := by
  have h := unknown_model_simulated ⟨none, none, none, none⟩
    ⟨fun _ => .httpErr 500 [], fun _ => .httpErr 500 [],
      fun _ => .httpErr 500 []⟩ pNone
    (chars "copilot") (chars "Hi") none (by decide) (by decide)
    (by decide) (by decide)
  exact ⟨h.1, h.2.1⟩

/-- Claim C8: with the provider credential absent, each adapter fails
before any outbound network call (`calls = []`), and since this happens
before streaming starts the client receives a 500-status error response
on either route and for either provider. -/
theorem missing_credential_fails_early (env : Env) (pv : Providers)
    (p : Parse) (prompt : List Char) (temp : Option Rat)
    (hok : env.openaiKey = none) (hgk : env.googleKey = none)
    (hp : prompt ≠ []) :
    chatHandler env pv p ⟨some (chars "chatgpt"), some prompt, temp⟩ =
      ⟨500, .streamBody [.write (chars "Missing OPENAI_API_KEY on server"),
        .close], []⟩ ∧
    chatSyncHandler env pv ⟨some (chars "chatgpt"), some prompt, temp⟩ =
      ⟨500, .jsonErr (chars "Error: Missing OPENAI_API_KEY"), []⟩ ∧
    chatHandler env pv p ⟨some (chars "googleai"), some prompt, temp⟩ =
      ⟨500, .jsonErr (chars "Error: Missing GOOGLE_API_KEY"), []⟩ ∧
    chatSyncHandler env pv ⟨some (chars "googleai"), some prompt, temp⟩ =
      ⟨500, .jsonErr (chars "Error: Missing GOOGLE_API_KEY"), []⟩ := by
  have hval1 : ¬(falsyStr (some (chars "chatgpt")) = true ∨
      falsyStr (some prompt) = true) := by
    rintro (h | h)
    · revert h; decide
    · simp [falsyStr] at h
      exact hp h
  have hval2 : ¬(falsyStr (some (chars "googleai")) = true ∨
      falsyStr (some prompt) = true) := by
    rintro (h | h)
    · revert h; decide
    · simp [falsyStr] at h
      exact hp h
  refine ⟨?_, ?_, ?_, ?_⟩
  · rw [chatHandler, if_neg hval1]
    simp only [Option.getD_some]
    rw [if_pos trivial, hok]
  · rw [chatSyncHandler, if_neg hval1]
    simp only [Option.getD_some, callOpenAICompletionFull]
    rw [if_pos trivial, hok]
  · rw [chatHandler, if_neg hval2]
    simp only [Option.getD_some, callGoogleGenerate]
    rw [if_neg (show ¬chars "googleai" = chars "chatgpt" by decide),
      if_pos trivial, hgk]
  · rw [chatSyncHandler, if_neg hval2]
    simp only [Option.getD_some, callGoogleGenerate]
    rw [if_neg (show ¬chars "googleai" = chars "chatgpt" by decide),
      if_pos trivial, hgk]

/-- Witness for C8. -/
theorem missing_credential_fails_early_witness :
    chatHandler ⟨none, none, none, none⟩
        ⟨fun _ => .httpErr 500 [], fun _ => .httpErr 500 [],
          fun _ => .httpErr 500 []⟩ pNone
        ⟨some (chars "chatgpt"), some (chars "Hi"), none⟩ =
      ⟨500, .streamBody [.write (chars "Missing OPENAI_API_KEY on server"),
        .close], []⟩ ∧
    chatSyncHandler ⟨none, none, none, none⟩
        ⟨fun _ => .httpErr 500 [], fun _ => .httpErr 500 [],
          fun _ => .httpErr 500 []⟩
        ⟨some (chars "googleai"), some (chars "Hi"), none⟩ =
      ⟨500, .jsonErr (chars "Error: Missing GOOGLE_API_KEY"), []⟩ := by
  have h := missing_credential_fails_early ⟨none, none, none, none⟩
    ⟨fun _ => .httpErr 500 [], fun _ => .httpErr 500 [],
      fun _ => .httpErr 500 []⟩ pNone (chars "Hi") none rfl rfl (by decide)
  exact ⟨h.1, h.2.2.2⟩

/-- The temperature field of an outbound call's request body. -/
def callTemperature : Call → Rat
  | .openaiStream b => b.temperature
  | .openaiFull b => b.temperature
  | .google b => b.temperature

theorem callOpenAICompletionFull_temps (env : Env) (pv : Providers)
    (prompt : List Char) :
    ∀ c ∈ (callOpenAICompletionFull env pv prompt).2,
      callTemperature c = 2/10 := by
  intro c hc
  cases hk : env.openaiKey with
  | none =>
    rw [callOpenAICompletionFull, hk] at hc
    simp at hc
  | some k =>
    rw [callOpenAICompletionFull, hk] at hc
    simp only at hc
    cases hf : pv.openaiFull (fullBodyOf env prompt) with
    | httpErr st t =>
      rw [hf] at hc
      simp at hc
      subst hc
      rfl
    | ok j =>
      rw [hf] at hc
      cases j <;> simp at hc <;> subst hc <;> rfl

theorem callGoogleGenerate_temps (env : Env) (pv : Providers)
    (prompt : List Char) :
    ∀ c ∈ (callGoogleGenerate env pv prompt none).2,
      callTemperature c = 2/10 := by
  intro c hc
  cases hk : env.googleKey with
  | none =>
    rw [callGoogleGenerate, hk] at hc
    simp at hc
  | some k =>
    rw [callGoogleGenerate, hk] at hc
    simp only at hc
    cases hf : pv.google ⟨prompt, (none : Option Rat).getD (2/10), 1, 800⟩ with
    | httpErr st t =>
      rw [hf] at hc
      simp at hc
      subst hc
      rfl
    | ok j =>
      rw [hf] at hc
      simp at hc
      subst hc
      rfl

/-- Claim C10: `POST /api/chat-sync` never reads the client temperature —
two requests identical up to the temperature field get identical
responses (and hence identical outbound requests), and every outbound
request the sync path constructs carries the fixed default `0.2`. -/
theorem sync_ignores_temperature (env : Env) (pv : Providers)
    (rq1 rq2 : ChatRequest)
    (hm : rq1.model = rq2.model) (hp : rq1.prompt = rq2.prompt) :
    chatSyncHandler env pv rq1 = chatSyncHandler env pv rq2 ∧
    ∀ c ∈ (chatSyncHandler env pv rq1).calls, callTemperature c = 2/10 := by
  rcases rq1 with ⟨m1, p1, t1⟩
  rcases rq2 with ⟨m2, p2, t2⟩
  simp only at hm hp
  subst hm
  subst hp
  constructor
  · rfl
  · intro c hc
    rw [chatSyncHandler] at hc
    by_cases hv : falsyStr m1 = true ∨ falsyStr p1 = true
    · rw [if_pos hv] at hc
      simp at hc
    · rw [if_neg hv] at hc
      by_cases h1 : m1.getD [] = chars "chatgpt"
      · rw [if_pos h1] at hc
        rcases hr : callOpenAICompletionFull env pv (p1.getD []) with ⟨res, cls⟩
        rw [hr] at hc
        have := callOpenAICompletionFull_temps env pv (p1.getD [])
        rw [hr] at this
        cases res <;> exact this c hc
      · rw [if_neg h1] at hc
        by_cases h2 : m1.getD [] = chars "googleai"
        · rw [if_pos h2] at hc
          rcases hr : callGoogleGenerate env pv (p1.getD []) none with ⟨res, cls⟩
          rw [hr] at hc
          have := callGoogleGenerate_temps env pv (p1.getD [])
          rw [hr] at this
          cases res <;> exact this c hc
        · rw [if_neg h2] at hc
          simp at hc

/-- Witness for C10: two sync requests differing only in temperature. -/
theorem sync_ignores_temperature_witness :
    chatSyncHandler ⟨none, none, none, none⟩
        ⟨fun _ => .httpErr 500 [], fun _ => .httpErr 500 [],
          fun _ => .httpErr 500 []⟩
        ⟨some (chars "copilot"), some (chars "Hi"), some (9/10)⟩ =
      chatSyncHandler ⟨none, none, none, none⟩
        ⟨fun _ => .httpErr 500 [], fun _ => .httpErr 500 [],
          fun _ => .httpErr 500 []⟩
        ⟨some (chars "copilot"), some (chars "Hi"), none⟩ :=
  (sync_ignores_temperature ⟨none, none, none, none⟩
    ⟨fun _ => .httpErr 500 [], fun _ => .httpErr 500 [],
      fun _ => .httpErr 500 []⟩
    ⟨some (chars "copilot"), some (chars "Hi"), some (9/10)⟩
    ⟨some (chars "copilot"), some (chars "Hi"), none⟩ rfl rfl).1

/-! ## Concrete fixtures for the remaining witnesses (the spec §8 example:
frames "Hel", "lo", then the sentinel) -/

def wPayload1 : List Char :=
  chars "\x7b\"choices\":[\x7b\"delta\":\x7b\"content\":\"Hel\"\x7d\x7d]\x7d"

def wPayload2 : List Char :=
  chars "\x7b\"choices\":[\x7b\"delta\":\x7b\"content\":\"lo\"\x7d\x7d]\x7d"

/-- A concrete deterministic parse table standing in for `JSON.parse`. -/
def pW : Parse := fun s =>
  if s = wPayload1 then some (deltaJson (chars "Hel"))
  else if s = wPayload2 then some (deltaJson (chars "lo"))
  else none

def envW : Env := ⟨some (chars "sk-test"), none, some (chars "g-key"), none⟩

def wBytes : List Nat :=
  (serializeFrames ([wPayload1, wPayload2].map dataFrame ++
    [dataFrame (chars "[DONE]")])).map Char.toNat

/-- The Google fixture body `{"candidates":[{"content":"Salut"}]}`. -/
def gJsonW : Json :=
  .obj [(chars "candidates", .arr [.obj [(chars "content",
    .str (chars "Salut"))]])]

def pvW : Providers :=
  ⟨fun _ => .ok [.chunk wBytes], fun _ => .ok (fullJson (chars "Hello")),
    fun _ => .ok gJsonW⟩

/-- Witness for C1: on the spec §8 fixture, the streaming route writes
`Hel` then `lo` and closes while the sync route returns
`{text: "Hello"}`, and on the Google fixture both routes carry `Salut`. -/
theorem chat_stream_matches_sync_witness :
    chatHandler envW pvW pW ⟨some (chars "chatgpt"), some (chars "Hi"), none⟩ =
      ⟨200, .streamBody [.write (chars "Hel"), .write (chars "lo"), .close],
        [.openaiStream (streamBodyOf envW (chars "Hi") none)]⟩ ∧
    chatSyncHandler envW pvW ⟨some (chars "chatgpt"), some (chars "Hi"), none⟩ =
      ⟨200, .jsonText (.str (chars "Hello")),
        [.openaiFull (fullBodyOf envW (chars "Hi"))]⟩ ∧
    chatHandler envW pvW pW ⟨some (chars "googleai"), some (chars "Hi"), none⟩ =
      ⟨200, .streamBody [.write (chars "Salut"), .close],
        [.google ⟨chars "Hi", 2/10, 1, 800⟩]⟩ ∧
    chatSyncHandler envW pvW ⟨some (chars "googleai"), some (chars "Hi"), none⟩ =
      ⟨200, .jsonText (.str (chars "Salut")),
        [.google ⟨chars "Hi", 2/10, 1, 800⟩]⟩ := by
  have h := chat_stream_matches_sync envW pvW pW (chars "Hi")
    (chars "sk-test") (chars "g-key") none none [wPayload1, wPayload2]
    [chars "Hel", chars "lo"] [wBytes] gJsonW (chars "Salut")
    rfl rfl (by decide) rfl
    (by
      intro pr hpr
      have hpr' : pr ∈ [(wPayload1, chars "Hel"), (wPayload2, chars "lo")] :=
        hpr
      rcases List.mem_cons.1 hpr' with rfl | hpr2
      · rfl
      · rcases List.mem_cons.1 hpr2 with rfl | hpr3
        · rfl
        · cases hpr3)
    (by
      intro s hs
      rcases List.mem_cons.1 hs with rfl | hs2
      · exact ⟨by decide, by decide, by decide⟩
      · rcases List.mem_cons.1 hs2 with rfl | hs3
        · exact ⟨by decide, by decide, by decide⟩
        · cases hs3)
    rfl (by decide) rfl rfl rfl
  exact ⟨h.1, h.2.1, h.2.2.2.2.1, h.2.2.2.2.2.1⟩

def wBytesMalformed : List Nat :=
  (serializeFrames ([dataFrame wPayload1] ++ [dataFrame (chars "oops")] ++
    [dataFrame wPayload2])).map Char.toNat

def wBytesWellformed : List Nat :=
  (serializeFrames ([dataFrame wPayload1] ++ [dataFrame wPayload2])).map
    Char.toNat

/-- Witness for C4: a malformed payload `oops` between the two good delta
frames changes nothing in the relayed output. -/
theorem relay_malformed_skipped_witness :
    relay pW ([wBytesMalformed].map .chunk) =
      relay pW ([wBytesWellformed].map .chunk) :=
  relay_malformed_skipped pW [dataFrame wPayload1] [dataFrame wPayload2]
    (chars "oops") [wBytesMalformed] [wBytesWellformed]
    (by
      intro f hf
      rcases List.mem_cons.1 hf with rfl | hf2
      · decide
      · rcases List.mem_cons.1 hf2 with rfl | hf3
        · decide
        · cases hf3)
    (by decide) (by decide) (by decide) rfl (by decide) (by decide)

def wBytesSingle : List Nat :=
  (serializeFrames [dataFrame wPayload1]).map Char.toNat

/-- A payload whose `choices` is an object with a `"0"` property rather
than an array — JavaScript bracket access still reaches the delta. -/
def wPayloadObj : List Char :=
  chars "\x7b\"choices\":\x7b\"0\":\x7b\"delta\":\x7b\"content\":\"hi\"\x7d\x7d\x7d\x7d"

def objDeltaJson : Json :=
  .obj [(chars "choices", .obj [(chars "0",
    .obj [(chars "delta", .obj [(chars "content", .str (chars "hi"))])])])]

def pW5 : Parse := fun s =>
  if s = wPayload1 then some (deltaJson (chars "Hel"))
  else if s = wPayloadObj then some objDeltaJson
  else none

def wBytesObj : List Nat :=
  (serializeFrames [dataFrame wPayloadObj]).map Char.toNat

/-- Witness for C5: the array-shaped delta payload
`{"choices":[{"delta":{"content":"Hel"}}]}` is relayed as the single
fragment `Hel`, and the object-shaped payload
`{"choices":{"0":{"delta":{"content":"hi"}}}}` (numeric property lookup)
as the single fragment `hi`. -/
theorem relay_extracts_delta_witness :
    (relay pW5 ([wBytesSingle].map .chunk)).evs =
      [.write (chars "Hel"), .close] ∧
    (relay pW5 ([wBytesObj].map .chunk)).evs =
      [.write (chars "hi"), .close] := by
  constructor
  · have h := relay_extracts_delta pW5 wPayload1 (deltaJson (chars "Hel"))
      [wBytesSingle] (by decide) (by decide) (by decide) rfl (by decide)
    exact h.2.1 (chars "Hel") rfl (by decide)
  · have h := relay_extracts_delta pW5 wPayloadObj objDeltaJson
      [wBytesObj] (by decide) (by decide) (by decide) rfl (by decide)
    exact h.2.1 (chars "hi") rfl (by decide)

end Proxy
